import Mathlib

/-!
# Verification of the kestral-tui resource-telemetry core

Shallow embedding of the resource-telemetry subsystem of kestral-tui:

* the history ring and health classifier of the resources pane
  (`internal/pane` — `sessionHistory.addSample`, `sessionHistory.sustainedAbove`,
  `ResourcesPane.sessionStatus`, `ResourcesPane.Update`);
* the process-table parser and per-session process-tree aggregation of
  `Fetcher.FetchResources` (`internal/data`);
* the poll scheduler loop of the root bubbletea `Model.Update`
  (`internal/app`).

Go `float64` CPU values are modelled as `Rat` (all values and comparisons
relevant here are exact decimals), Go integers as `Int`, timestamps as
Unix seconds (`Int`).
-/

namespace KestralTui

/-! ## History ring (internal/pane resources.go: `sessionHistory`) -/

/-- Number of historical samples kept per session (`maxSamples`). -/
def maxSamples : Nat := 10

/-- CPU warn threshold (`cpuWarnThreshold = 80.0`). -/
def cpuWarnThreshold : Rat := 80

/-- CPU alert threshold (`cpuAlertThreshold = 95.0`). -/
def cpuAlertThreshold : Rat := 95

/-- Consecutive samples required for a sustained warning (`cpuWarnSamples`). -/
def cpuWarnSamples : Nat := 4

/-- Consecutive samples required for a sustained alert (`cpuAlertSamples`). -/
def cpuAlertSamples : Nat := 10

/-- Stale threshold in seconds (`staleThreshold = 15 * time.Minute`). -/
def staleThresholdSecs : Int := 15 * 60

/-- `sessionHistory`: CPU samples for one session, most recent last. -/
structure sessionHistory where
  cpuSamples : List Rat
  deriving DecidableEq, Repr

/-- `addSample`: append the sample; if the buffer exceeds `maxSamples`,
keep only the last `maxSamples` entries (`s[len(s)-maxSamples:]`). -/
def sessionHistory.addSample (h : sessionHistory) (cpu : Rat) : sessionHistory :=
  let s := h.cpuSamples ++ [cpu]
  if maxSamples < s.length then ⟨s.drop (s.length - maxSamples)⟩ else ⟨s⟩

/-- `sustainedAbove`: true iff there are at least `n` samples and none of the
last `n` samples is below `threshold` (the Go loop returns `false` on
`v < threshold`). -/
def sessionHistory.sustainedAbove (h : sessionHistory) (threshold : Rat) (n : Nat) : Bool :=
  if h.cpuSamples.length < n then false
  else (h.cpuSamples.drop (h.cpuSamples.length - n)).all fun v => !(v < threshold)

/-! ## Health classifier (`ResourcesPane.sessionStatus`)

The pane looks the session up in its history map (`p.history[name]`), which
may be absent (`nil`); the classifier takes that `Option` directly.
`time.Since(lastActivity) > staleThreshold` is modelled at second
granularity with an explicit `now` clock parameter. -/

/-- `sessionStatus`: stale / alert / warning / healthy classification. -/
def sessionStatus (hist : Option sessionHistory) (cpu : Rat) (activityTS now : Int) :
    String :=
  if activityTS > 0 ∧ now - activityTS > staleThresholdSecs then "stale"
  else if (hist.elim false fun h => h.sustainedAbove cpuAlertThreshold cpuAlertSamples) then
    "alert"
  else if (hist.elim false fun h => h.sustainedAbove cpuWarnThreshold cpuWarnSamples) then
    "warning"
  else if cpu > cpuAlertThreshold then "warning"
  else "healthy"

/-- Samples held by an optional history (empty when the session has none). -/
def histSamples (hist : Option sessionHistory) : List Rat :=
  (hist.elim ⟨[]⟩ id).cpuSamples

/-- The last `n` entries of `l` exist and are all at least `t`
(the condition `sustainedAbove` actually decides). -/
def LastSamplesAtLeast (l : List Rat) (t : Rat) (n : Nat) : Prop :=
  n ≤ l.length ∧ ∀ v ∈ l.drop (l.length - n), t ≤ v

instance (l : List Rat) (t : Rat) (n : Nat) : Decidable (LastSamplesAtLeast l t n) :=
  inferInstanceAs (Decidable (_ ∧ _))

/-! ## Process table parser (internal/data fetcher.go: `FetchResources`, step 3)

Numeric parsing mirrors the Go standard library on the inputs `ps` produces:
`goAtoi` models `strconv.Atoi`/`strconv.ParseInt` (optional sign, decimal
digits only), `goParseRat` models `strconv.ParseFloat` restricted to plain
decimal notation (optional sign, digits, optional fraction), and `goFields`
models `strings.Fields` (split on whitespace runs). -/

/-- One parsed `ps` record (`procInfo`): pid, ppid, cpu%, rss in KB. -/
structure ProcInfo where
  pid : Int
  ppid : Int
  cpu : Rat
  rss : Int
  deriving DecidableEq, Repr

/-- Value of a digit string (no validity check; callers check digits). -/
def digitsFold (cs : List Char) : Nat :=
  cs.foldl (fun acc c => 10 * acc + (c.toNat - 48)) 0

/-- A non-empty all-digit string's value, else `none`. -/
def digitsVal (cs : List Char) : Option Nat :=
  if cs ≠ [] ∧ cs.all Char.isDigit then some (digitsFold cs) else none

/-- `strconv.Atoi`: optional sign followed by one or more decimal digits. -/
def goAtoi (s : String) : Option Int :=
  match s.toList with
  | '+' :: rest => (digitsVal rest).map fun n => (n : Int)
  | '-' :: rest => (digitsVal rest).map fun n => -(n : Int)
  | cs => (digitsVal cs).map fun n => (n : Int)

/-- Unsigned decimal core of `strconv.ParseFloat`: `digits`, `digits.`,
`digits.digits` or `.digits`. -/
def decCore (cs : List Char) : Option Rat :=
  match cs.splitOn '.' with
  | [ip] => (digitsVal ip).map fun n => (n : Rat)
  | [ip, fp] =>
    if ip = [] ∧ fp = [] then none
    else if ip.all Char.isDigit ∧ fp.all Char.isDigit then
      some ((digitsFold ip : Rat) + (digitsFold fp : Rat) / ((10 : Rat) ^ fp.length))
    else none
  | _ => none

/-- `strconv.ParseFloat` on the fixed-point decimals `ps` emits. -/
def goParseRat (s : String) : Option Rat :=
  match s.toList with
  | '+' :: rest => decCore rest
  | '-' :: rest => (decCore rest).map Neg.neg
  | cs => decCore cs

/-- `strings.Fields`: the non-empty maximal runs between whitespace
(split at every whitespace character, drop the empty chunks). -/
def goFields (s : String) : List String :=
  ((s.toList.splitOnP fun c => c.isWhitespace).map fun cs => String.mk cs).filter
    fun f => f ≠ ""

/-- The per-line body of the `ps` scanner loop: skip the line when it has
fewer than four fields or a non-numeric pid/ppid; a cpu or rss field that
fails to parse contributes `0` (`cpu, _ := strconv.ParseFloat(...)`,
`rss, _ := strconv.ParseInt(...)`). -/
def parsePsFields (fields : List String) : Option ProcInfo :=
  match fields with
  | f0 :: f1 :: f2 :: f3 :: _ =>
    match goAtoi f0 with
    | none => none
    | some pid =>
      match goAtoi f1 with
      | none => none
      | some ppid => some ⟨pid, ppid, (goParseRat f2).getD 0, (goAtoi f3).getD 0⟩
  | _ => none

/-- Parse one `ps` output line. -/
def parsePsLine (line : String) : Option ProcInfo :=
  parsePsFields (goFields line)

/-- The full scanner loop: malformed lines contribute nothing. -/
def parsePsLines (lines : List String) : List ProcInfo :=
  lines.filterMap parsePsLine

/-! ## Process tree aggregation (`FetchResources`, step 4)

The Go code builds `children` (ppid → child pids, in table order) and
`pidIdx` (pid → index of its last record) and then runs a BFS from the pane
pids with a `visited` set, summing cpu/rss and counting the popped pids that
have a table record. -/

/-- `children[pp]`: pids of the records whose ppid is `pp`, in table order. -/
def childrenOf (procs : List ProcInfo) (pp : Int) : List Int :=
  (procs.filter fun p => p.ppid = pp).map fun p => p.pid

/-- `procs[pidIdx[pid]]`: the last record with this pid, if any. -/
def pidLookup (procs : List ProcInfo) (pid : Int) : Option ProcInfo :=
  procs.reverse.find? fun p => p.pid = pid

/-- The BFS loop state: visited set (as a membership list), FIFO queue, and
the running cpu/rss/count totals. -/
structure BfsState where
  visited : List Int
  queue : List Int
  totalCPU : Rat
  totalRSS : Int
  procCount : Nat
  deriving Repr

/-- The inner `for _, child := range children[pid]` loop: mark unvisited
children visited and append them to the queue, left to right. -/
def enqueueChildren (kids : List Int) (visited queue : List Int) : List Int × List Int :=
  match kids with
  | [] => (visited, queue)
  | k :: rest =>
    if k ∈ visited then enqueueChildren rest visited queue
    else enqueueChildren rest (k :: visited) (queue ++ [k])

/-- The `for len(queue) > 0` loop, with fuel (the Go loop terminates because
every pid is enqueued at most once; `sessionAggregate` supplies enough fuel,
as proved below). -/
def bfsRun (procs : List ProcInfo) : Nat → BfsState → BfsState
  | 0, s => s
  | fuel + 1, s =>
    match s.queue with
    | [] => s
    | pid :: rest =>
      let s1 :=
        match pidLookup procs pid with
        | some p =>
          { s with totalCPU := s.totalCPU + p.cpu, totalRSS := s.totalRSS + p.rss,
                   procCount := s.procCount + 1 }
        | none => s
      let vq := enqueueChildren (childrenOf procs pid) s1.visited rest
      bfsRun procs fuel { s1 with visited := vq.1, queue := vq.2 }

/-- Aggregate one session: start from the pane pids (all marked visited and
enqueued) and run the BFS to completion. -/
def sessionAggregate (procs : List ProcInfo) (panePIDs : List Int) : BfsState :=
  bfsRun procs (panePIDs.length + procs.length)
    ⟨panePIDs, panePIDs, 0, 0, 0⟩

/-! ## Session assembly (`FetchResources`, steps 1, 2 and 4) -/

/-- One session's metadata from `tmux list-sessions`
(`name|session_created|session_activity`). -/
structure SessionMeta where
  name : String
  created : Int
  activity : Int
  deriving DecidableEq, Repr

/-- `SessionResource` (internal/data types.go): aggregated usage for one
session.  `MemRSS` is in bytes. -/
structure SessionResource where
  Name : String
  CPUPercent : Rat
  MemRSS : Int
  ProcessCount : Nat
  UptimeSecs : Int
  ActivityTS : Int
  deriving DecidableEq, Repr

/-- The per-session body of step 4: a session with no pane pids gets a
zero-usage snapshot with real uptime and activity; otherwise the BFS totals
are reported, with rss converted from KB to bytes. -/
def sessionResource (procs : List ProcInfo) (now : Int) (sm : SessionMeta)
    (panePIDs : List Int) : SessionResource :=
  if panePIDs = [] then
    { Name := sm.name, CPUPercent := 0, MemRSS := 0, ProcessCount := 0,
      UptimeSecs := now - sm.created, ActivityTS := sm.activity }
  else
    let s := sessionAggregate procs panePIDs
    { Name := sm.name, CPUPercent := s.totalCPU, MemRSS := s.totalRSS * 1024,
      ProcessCount := s.procCount, UptimeSecs := now - sm.created,
      ActivityTS := sm.activity }

/-- `sessionPanes[name]`: the pane pids appended for this session, in pane
listing order. -/
def panesFor (paneEntries : List (String × Int)) (name : String) : List Int :=
  (paneEntries.filter fun e => e.1 = name).map fun e => e.2

/-- The step-4 loop over all sessions.  (The Go code iterates a name-keyed
map built from the session listing — duplicate names collapse, iteration
order is unspecified; the embedding iterates the listed sessions, which the
claims are insensitive to.) -/
def fetchResourcesCore (procs : List ProcInfo) (sessions : List SessionMeta)
    (paneEntries : List (String × Int)) (now : Int) : List SessionResource :=
  sessions.map fun sm => sessionResource procs now sm (panesFor paneEntries sm.name)

/-! ## Session and pane listings (`FetchResources`, steps 1 and 2) -/

/-- `strings.TrimSpace`: drop whitespace from both ends. -/
def trimChars (cs : List Char) : List Char :=
  ((cs.dropWhile Char.isWhitespace).reverse.dropWhile Char.isWhitespace).reverse

/-- `strings.Split(strings.TrimSpace(out), "\n")`. -/
def goLines (out : String) : List String :=
  ((trimChars out.toList).splitOn '\n').map fun cs => String.mk cs

/-- `strings.SplitN(s, sep, k)`: at most `k` chunks, the last chunk keeps
any remaining separators. -/
def goSplitN (s : String) (sep : Char) (k : Nat) : List String :=
  let parts := s.toList.splitOn sep
  if parts.length ≤ k then parts.map fun cs => String.mk cs
  else
    ((parts.take (k - 1)).map fun cs => String.mk cs) ++
      [String.mk (List.intercalate [sep] (parts.drop (k - 1)))]

/-- `fmt.Sscanf(s, "%d", &x)` leaves `x` at zero unless the input starts
(after whitespace) with an optionally signed digit run; it reads the digit
prefix and ignores trailing input. -/
def goScanInt (s : String) : Int :=
  let cs := s.toList.dropWhile Char.isWhitespace
  match cs with
  | '-' :: rest => -(digitsFold (rest.takeWhile Char.isDigit) : Int)
  | '+' :: rest => (digitsFold (rest.takeWhile Char.isDigit) : Int)
  | _ => (digitsFold (cs.takeWhile Char.isDigit) : Int)

/-- Step-1 per-line body: `SplitN(line, "|", 3)`; lines with fewer than
three parts (or empty lines) are skipped; timestamps are `Sscanf`-parsed. -/
def parseSessionLine (line : String) : Option SessionMeta :=
  if line = "" then none
  else
    match goSplitN line '|' 3 with
    | p0 :: p1 :: p2 :: _ => some ⟨p0, goScanInt p1, goScanInt p2⟩
    | _ => none

/-- Step-2 per-line body: `SplitN(line, "|", 2)`; lines with fewer than two
parts, or whose pid does not `Atoi`-parse after trimming, are skipped. -/
def parsePaneLine (line : String) : Option (String × Int) :=
  if line = "" then none
  else
    match goSplitN line '|' 2 with
    | p0 :: p1 :: _ =>
      match goAtoi (String.mk (trimChars p1.toList)) with
      | some pid => some (p0, pid)
      | none => none
    | _ => none

/-- `FetchResources` with the three external command invocations abstracted:
`none` stands for a failed invocation (error or timeout), `some out` for the
captured stdout.  Errors arise only from failed invocations; parse-level
issues never produce an error.  An empty session listing short-circuits to
`nil, nil` before the other two commands run. -/
def fetchResourcesModel (sessOut paneOut psOut : Option String) (now : Int) :
    Except String (List SessionResource) :=
  match sessOut with
  | none => .error "listing tmux sessions"
  | some so =>
    let sessions := (goLines so).filterMap parseSessionLine
    if sessions.isEmpty then .ok []
    else
      match paneOut with
      | none => .error "listing tmux panes"
      | some po =>
        match psOut with
        | none => .error "listing processes"
        | some pso =>
          let paneEntries := (goLines po).filterMap parsePaneLine
          let procs := parsePsLines (goLines pso)
          .ok (fetchResourcesCore procs sessions paneEntries now)

/-! ## Claim theorems about the BFS traversal -/

def allPidsF (procs : List ProcInfo) : Finset Int :=
  (procs.map fun p => p.pid).toFinset

/-! ## Resources pane update (internal/pane resources.go: `ResourcesPane.Update`)

The embedding keeps the pane fields the `ResourceUpdateMsg` branch touches:
`p.sessions = msg.Sessions; p.err = msg.Err`, sample recording into the
history map, `sortSessions` and `clampScroll`.  The Go history map is an
association list here; `sort.Slice` (an unspecified-order in-place sort) is
modelled by an insertion sort over the same comparison. -/

/-- `sortField`: which column the resources table is sorted by. -/
inductive sortField
  | sortByCPU
  | sortByMem
  | sortByName
  deriving DecidableEq, Repr

/-- The `ResourcesPane` fields the update branch reads or writes. -/
structure ResourcesPaneState where
  sessions : List SessionResource
  history : List (String × sessionHistory)
  cursor : Int
  offset : Int
  width : Int
  height : Int
  err : Option String
  sortBy : sortField
  deriving Repr

/-- `h, ok := p.history[s.Name]; if !ok { h = &sessionHistory{} };
h.addSample(cpu)`. -/
def histUpsert (m : List (String × sessionHistory)) (name : String) (cpu : Rat) :
    List (String × sessionHistory) :=
  match m.lookup name with
  | some _ => m.map fun e => if e.1 = name then (e.1, e.2.addSample cpu) else e
  | none => m ++ [(name, sessionHistory.addSample ⟨[]⟩ cpu)]

/-- Insert `a` before the first element it compares less-than. -/
def insertSorted (less : SessionResource → SessionResource → Bool) (a : SessionResource) :
    List SessionResource → List SessionResource
  | [] => [a]
  | b :: l => if less a b then a :: b :: l else b :: insertSorted less a l

/-- `sort.Slice` with the given less function (sorted refinement of the
unstable in-place sort). -/
def sortSlice (less : SessionResource → SessionResource → Bool)
    (l : List SessionResource) : List SessionResource :=
  l.foldr (insertSorted less) []

/-- `sortSessions`: CPU and memory descending, name ascending. -/
def sortSessions (sb : sortField) (l : List SessionResource) : List SessionResource :=
  match sb with
  | .sortByCPU => sortSlice (fun a b => decide (a.CPUPercent > b.CPUPercent)) l
  | .sortByMem => sortSlice (fun a b => decide (a.MemRSS > b.MemRSS)) l
  | .sortByName => sortSlice (fun a b => decide (a.Name < b.Name)) l

/-- `clampScroll`: keep offset within `[0, maxOffset]` and the cursor within
the session rows. -/
def clampScroll (p : ResourcesPaneState) : ResourcesPaneState :=
  let rows : Int := p.sessions.length
  let contentHeight0 : Int := p.height - 3
  let contentHeight : Int := if contentHeight0 < 1 then 1 else contentHeight0
  let maxOffset0 : Int := rows - contentHeight
  let maxOffset : Int := if maxOffset0 < 0 then 0 else maxOffset0
  let p1 := if p.offset > maxOffset then { p with offset := maxOffset } else p
  let p2 := if p1.offset < 0 then { p1 with offset := 0 } else p1
  let p3 := if p2.cursor ≥ rows then { p2 with cursor := rows - 1 } else p2
  if p3.cursor < 0 then { p3 with cursor := 0 } else p3

/-- The `ResourceUpdateMsg` branch of `ResourcesPane.Update`: store the
message's sessions and error unconditionally, record each session's CPU
sample, sort, clamp. -/
def updateOnResourceMsg (p : ResourcesPaneState) (msgSessions : List SessionResource)
    (msgErr : Option String) : ResourcesPaneState :=
  let p1 := { p with sessions := msgSessions, err := msgErr }
  let hist := msgSessions.foldl (fun m s => histUpsert m s.Name s.CPUPercent) p.history
  let p2 := { p1 with history := hist, sessions := sortSessions p1.sortBy p1.sessions }
  clampScroll p2

/-! ## Poll scheduler (internal/app app.go: `Model.Init`, `Model.Update`,
`handleKey`)

The root bubbletea model keeps no in-flight state for polling.  The
scheduler-relevant message handling is: a `*TickMsg` returns the category's
fetch command unconditionally; a `*UpdateMsg` (the fetch's published result)
schedules the category's next tick after its poll interval; the refresh key
returns a batch of fetch commands for every category; `Init` starts one
fetch per category.  (The one-shot rig-list fetch and the conditional
agent-detail poll are outside the claim and omitted.)

The event loop around the model is a transition system whose state counts,
per category, the outstanding background fetches (`inFlight`) and pending
scheduled timers (`timers`); the environment may deliver a pending tick,
complete an outstanding fetch (publishing its update message), or press the
refresh key. -/

/-- The periodically polled data categories. -/
inductive PollCategory
  | status
  | agents
  | convoys
  | mail
  | refinery
  | resources
  | witnesses
  | prs
  deriving DecidableEq, Repr

/-- Commands `Model.Update` emits: start a background fetch, or start the
timer for the category's next tick (`tea.Tick`). -/
inductive SchedCmd
  | fetch (c : PollCategory)
  | schedule (c : PollCategory)
  deriving DecidableEq, Repr

/-- Polling-relevant events delivered to `Model.Update`. -/
inductive SchedEvent
  | tick (c : PollCategory)
  | update (c : PollCategory)
  | refreshKey
  deriving DecidableEq, Repr

/-- All eight periodic categories, in the order `handleKey` fetches them. -/
def allCategories : List PollCategory :=
  [.status, .agents, .convoys, .mail, .refinery, .resources, .witnesses, .prs]

/-- The commands `Model.Update`/`handleKey` returns for each polling event:
no branch consults any in-flight state. -/
def schedStep : SchedEvent → List SchedCmd
  | .tick c => [.fetch c]
  | .update c => [.schedule c]
  | .refreshKey => allCategories.map .fetch

/-- `Model.Init`: one fetch per category. -/
def schedInit : List SchedCmd := allCategories.map .fetch

/-- Outstanding background work per category: running fetch commands and
pending tick timers. -/
structure SchedJobs where
  inFlight : PollCategory → Nat
  timers : PollCategory → Nat

/-- Effect of one emitted command on the outstanding work. -/
def applyCmd (s : SchedJobs) : SchedCmd → SchedJobs
  | .fetch c => { s with inFlight := Function.update s.inFlight c (s.inFlight c + 1) }
  | .schedule c => { s with timers := Function.update s.timers c (s.timers c + 1) }

/-- Effect of a command batch (`tea.Batch`). -/
def applyCmds (s : SchedJobs) (cmds : List SchedCmd) : SchedJobs :=
  cmds.foldl applyCmd s

/-- Environment transitions of the event loop. -/
inductive SchedLabel
  | deliverTick (c : PollCategory)
  | completeFetch (c : PollCategory)
  | pressRefresh
  deriving DecidableEq, Repr

/-- One event-loop transition: a tick can only be delivered if its timer is
pending, a fetch can only complete if it is in flight; the model's step then
runs and its commands take effect. -/
def schedNext (s : SchedJobs) : SchedLabel → Option SchedJobs
  | .deliverTick c =>
    if s.timers c = 0 then none
    else some (applyCmds { s with timers := Function.update s.timers c (s.timers c - 1) }
      (schedStep (.tick c)))
  | .completeFetch c =>
    if s.inFlight c = 0 then none
    else some (applyCmds { s with inFlight := Function.update s.inFlight c (s.inFlight c - 1) }
      (schedStep (.update c)))
  | .pressRefresh => some (applyCmds s (schedStep .refreshKey))

/-- State right after `Model.Init`: every category has one fetch in flight. -/
def schedInitState : SchedJobs :=
  applyCmds ⟨fun _ => 0, fun _ => 0⟩ schedInit

/-- Run a sequence of event-loop transitions from a state. -/
def schedRun : List SchedLabel → SchedJobs → Option SchedJobs
  | [], s => some s
  | l :: rest, s =>
    match schedNext s l with
    | none => none
    | some s2 => schedRun rest s2

/-- The refresh-free trace used by the C1 witness: the initial resources
fetch completes (scheduling a tick), then the tick is delivered (starting
the next fetch). -/
def schedWitnessTrace : List SchedLabel :=
  [.completeFetch .resources, .deliverTick .resources]

/-- The state reached by `schedWitnessTrace`. -/
def schedWitnessState : SchedJobs :=
  (schedRun schedWitnessTrace schedInitState).getD ⟨fun _ => 0, fun _ => 0⟩

/-! ## Lemmas about the history ring -/

theorem sustainedAbove_iff (h : sessionHistory) (t : Rat) (n : Nat) :
    h.sustainedAbove t n = true ↔ LastSamplesAtLeast h.cpuSamples t n := by
  unfold sessionHistory.sustainedAbove LastSamplesAtLeast
  split
  · next hlt =>
    simp only [Bool.false_eq_true, false_iff, not_and]
    omega
  · next hge =>
    simp only [List.all_eq_true, Bool.not_eq_true', decide_eq_false_iff_not, not_lt]
    constructor
    · intro hall
      exact ⟨by omega, hall⟩
    · intro hall
      exact hall.2

theorem length_addSample (h : sessionHistory) (v : Rat) :
    (h.addSample v).cpuSamples.length = min (h.cpuSamples.length + 1) maxSamples := by
  simp only [sessionHistory.addSample]
  split
  · next hlt =>
    simp only [List.length_drop, List.length_append, List.length_singleton] at *
    omega
  · next hge =>
    simp only [List.length_append, List.length_singleton] at *
    omega

theorem getLast?_addSample (h : sessionHistory) (v : Rat) :
    (h.addSample v).cpuSamples.getLast? = some v := by
  simp only [sessionHistory.addSample]
  split
  · next hlt =>
    have hlen : (h.cpuSamples ++ [v]).length = h.cpuSamples.length + 1 := by simp
    have hm : maxSamples = 10 := rfl
    rw [List.drop_append_of_le_length (by omega)]
    exact List.getLast?_concat _
  · next hge =>
    exact List.getLast?_concat _

theorem length_foldl_addSample (h : sessionHistory) (vs : List Rat)
    (hle : h.cpuSamples.length ≤ maxSamples) :
    (vs.foldl sessionHistory.addSample h).cpuSamples.length ≤ maxSamples := by
  induction vs generalizing h with
  | nil => exact hle
  | cons v vs ih =>
    refine ih _ ?_
    rw [length_addSample]
    omega

/-! ## Health classifier lemmas -/

theorem sessionStatus_not_stale_eq (hist : Option sessionHistory) (cpu : Rat)
    (activityTS now : Int)
    (hns : sessionStatus hist cpu activityTS now ≠ "stale") :
    sessionStatus hist cpu activityTS now =
      if (hist.elim false fun h => h.sustainedAbove cpuAlertThreshold cpuAlertSamples) then
        "alert"
      else if (hist.elim false fun h => h.sustainedAbove cpuWarnThreshold cpuWarnSamples) then
        "warning"
      else if cpu > cpuAlertThreshold then "warning"
      else "healthy" := by
  by_cases hstale : activityTS > 0 ∧ now - activityTS > staleThresholdSecs
  · exact absurd (by simp [sessionStatus, hstale]) hns
  · simp [sessionStatus, hstale]

theorem histSamples_some (h : sessionHistory) : histSamples (some h) = h.cpuSamples := rfl

theorem elim_sustained_iff (hist : Option sessionHistory) (t : Rat) (n : Nat) (hn : 0 < n) :
    (hist.elim false fun h => h.sustainedAbove t n) = true ↔
      LastSamplesAtLeast (histSamples hist) t n := by
  cases hist with
  | none =>
    simp only [Option.elim_none, Bool.false_eq_true, false_iff]
    intro hcon
    simp only [LastSamplesAtLeast, histSamples, Option.elim_none, List.length_nil] at hcon
    omega
  | some h => simpa using sustainedAbove_iff h t n

theorem elim_sustained_false_of_short (hist : Option sessionHistory) (t : Rat) (n : Nat)
    (hlen : (histSamples hist).length < n) :
    (hist.elim false fun h => h.sustainedAbove t n) = false := by
  cases hist with
  | none => rfl
  | some h =>
    simp only [histSamples, Option.elim_some, id] at hlen
    unfold sessionHistory.sustainedAbove
    simp only [Option.elim_some]
    rw [if_pos hlen]

/-! ## Claim theorems about the classifier -/

/-- C4 counterexample: with the ten most recent samples all exactly `95`,
`sessionStatus` already classifies `alert`, although the samples are not all
strictly above 95 (under the claimed rules this input would be `warning`,
since all of the last 4 samples exceed 80). -/
theorem claim_C4_counterexample :
    sessionStatus (some ⟨List.replicate 10 95⟩) 95 0 1 = "alert" ∧
    ¬ ∀ v ∈ List.replicate 10 (95 : Rat), v > 95 := by
  exact ⟨by decide, by decide⟩

/-- C4 (amended): for a session not classified stale, `sessionStatus` returns
`alert` exactly when there are at least 10 samples and the 10 most recent are
all at least 95 (the comparison is non-strict: `sustainedAbove` rejects only
samples strictly below the threshold), and otherwise returns `warning`
whenever there are at least 4 samples and the 4 most recent are all at
least 80. -/
theorem claim_C4_sustained_thresholds :
    ∀ (hist : Option sessionHistory) (cpu : Rat) (activityTS now : Int),
      sessionStatus hist cpu activityTS now ≠ "stale" →
      ((sessionStatus hist cpu activityTS now = "alert" ↔
          LastSamplesAtLeast (histSamples hist) cpuAlertThreshold cpuAlertSamples) ∧
        (¬ LastSamplesAtLeast (histSamples hist) cpuAlertThreshold cpuAlertSamples →
          LastSamplesAtLeast (histSamples hist) cpuWarnThreshold cpuWarnSamples →
          sessionStatus hist cpu activityTS now = "warning")) := by
  intro hist cpu ts now hns
  have heq := sessionStatus_not_stale_eq hist cpu ts now hns
  have halert := elim_sustained_iff hist cpuAlertThreshold cpuAlertSamples (by decide)
  have hwarn := elim_sustained_iff hist cpuWarnThreshold cpuWarnSamples (by decide)
  rw [heq]
  by_cases hA : (hist.elim false fun h =>
      h.sustainedAbove cpuAlertThreshold cpuAlertSamples) = true
  · rw [if_pos hA]
    exact ⟨iff_of_true rfl (halert.mp hA), fun hna _ => absurd (halert.mp hA) hna⟩
  · rw [if_neg hA]
    have hnc : ¬ LastSamplesAtLeast (histSamples hist) cpuAlertThreshold cpuAlertSamples :=
      fun hc => hA (halert.mpr hc)
    refine ⟨iff_of_false ?_ hnc, fun _ hw => ?_⟩
    · split_ifs <;> decide
    · rw [if_pos (hwarn.mpr hw)]

/-- C4 witness: feeding ten consecutive samples of 96 yields `alert`. -/
theorem claim_C4_witness :
    sessionStatus (some ⟨List.replicate 10 96⟩) 96 0 1 = "alert" :=
  (claim_C4_sustained_thresholds (some ⟨List.replicate 10 96⟩) 96 0 1 (by decide)).1.mpr
    (by constructor <;> decide)

/-- C5 counterexample: a full 10-sample history `[0,…,0,96]` whose latest
sample exceeds 95: neither sustained rule fires, the history is not shorter
than the required run length, yet `sessionStatus` returns `warning`, not
`healthy` — the instantaneous check is not restricted to short histories. -/
theorem claim_C5_counterexample :
    sessionStatus (some ⟨[0, 0, 0, 0, 0, 0, 0, 0, 0, 96]⟩) 96 0 1 = "warning" ∧
    ¬ LastSamplesAtLeast [0, 0, 0, 0, 0, 0, 0, 0, 0, (96 : Rat)]
        cpuAlertThreshold cpuAlertSamples ∧
    ¬ LastSamplesAtLeast [0, 0, 0, 0, 0, 0, 0, 0, 0, (96 : Rat)]
        cpuWarnThreshold cpuWarnSamples ∧
    ¬ ([0, 0, 0, 0, 0, 0, 0, 0, 0, (96 : Rat)].length < cpuAlertSamples) :=
  ⟨by decide, by decide, by decide, by decide⟩

/-- C5 (amended): `sessionStatus` never returns `alert` with fewer than
`cpuAlertSamples` samples of history; and when the session is not stale and
neither sustained rule fires, it returns `warning` exactly when the
instantaneous latest sample exceeds 95 — regardless of how much history
exists — and `healthy` otherwise. -/
theorem claim_C5_instantaneous_warning :
    (∀ (hist : Option sessionHistory) (cpu : Rat) (activityTS now : Int),
        (histSamples hist).length < cpuAlertSamples →
        sessionStatus hist cpu activityTS now ≠ "alert") ∧
    (∀ (hist : Option sessionHistory) (cpu : Rat) (activityTS now : Int),
        sessionStatus hist cpu activityTS now ≠ "stale" →
        ¬ LastSamplesAtLeast (histSamples hist) cpuAlertThreshold cpuAlertSamples →
        ¬ LastSamplesAtLeast (histSamples hist) cpuWarnThreshold cpuWarnSamples →
        ((sessionStatus hist cpu activityTS now = "warning" ↔ cpu > cpuAlertThreshold) ∧
          (¬ cpu > cpuAlertThreshold →
            sessionStatus hist cpu activityTS now = "healthy"))) := by
  constructor
  · intro hist cpu ts now hlen
    have hA := elim_sustained_false_of_short hist cpuAlertThreshold cpuAlertSamples hlen
    simp only [sessionStatus, hA, Bool.false_eq_true, if_false]
    split_ifs <;> decide
  · intro hist cpu ts now hns hnalert hnwarn
    have heq := sessionStatus_not_stale_eq hist cpu ts now hns
    have hA : (hist.elim false fun h =>
        h.sustainedAbove cpuAlertThreshold cpuAlertSamples) = false := by
      rw [← Bool.not_eq_true]
      exact fun hb =>
        hnalert ((elim_sustained_iff hist cpuAlertThreshold cpuAlertSamples (by decide)).mp hb)
    have hW : (hist.elim false fun h =>
        h.sustainedAbove cpuWarnThreshold cpuWarnSamples) = false := by
      rw [← Bool.not_eq_true]
      exact fun hb =>
        hnwarn ((elim_sustained_iff hist cpuWarnThreshold cpuWarnSamples (by decide)).mp hb)
    rw [heq]
    simp only [hA, hW, Bool.false_eq_true, if_false]
    constructor
    · split_ifs with hc
      · exact iff_of_true rfl hc
      · exact iff_of_false (by decide) hc
    · intro hc
      rw [if_neg hc]

/-- C5 witness: a session with no history at all and an instantaneous sample
of 96 classifies as `warning` (a softer signal, not `alert`). -/
theorem claim_C5_witness : sessionStatus none 96 0 1 = "warning" :=
  ((claim_C5_instantaneous_warning.2 none 96 0 1 (by decide) (by decide) (by decide)).1).mpr
    (by decide)

/-- C9 (confirmed): the retained sample list never exceeds `maxSamples = 10`
after any sequence of `addSample` calls starting from the empty history, the
value passed to the most recent `addSample` call is always the last element,
and insertion at capacity evicts exactly the oldest sample. -/
theorem claim_C9_history_ring :
    (∀ vs : List Rat,
        (vs.foldl sessionHistory.addSample ⟨[]⟩).cpuSamples.length ≤ maxSamples) ∧
    (∀ (h : sessionHistory) (v : Rat), (h.addSample v).cpuSamples.getLast? = some v) ∧
    (∀ (h : sessionHistory) (v : Rat), h.cpuSamples.length = maxSamples →
        (h.addSample v).cpuSamples = h.cpuSamples.tail ++ [v]) := by
  refine ⟨fun vs => length_foldl_addSample ⟨[]⟩ vs (by simp [maxSamples]),
    getLast?_addSample, fun h v hlen => ?_⟩
  simp only [sessionHistory.addSample]
  rw [if_pos (by simp [maxSamples, hlen])]
  have hm : maxSamples = 10 := rfl
  have hlen' : (h.cpuSamples ++ [v]).length = 11 := by simp [hlen, hm]
  rw [hlen', hm]
  rw [show (11 - 10 : Nat) = 1 from rfl, List.drop_append_of_le_length (by omega),
    List.drop_one]

/-- C9 witness: a history at capacity `[1,…,10]` receiving sample 11 becomes
`[2,…,10,11]` — the oldest sample is evicted, the newest is last. -/
theorem claim_C9_witness :
    ((sessionHistory.mk [1, 2, 3, 4, 5, 6, 7, 8, 9, 10]).addSample 11).cpuSamples
      = [2, 3, 4, 5, 6, 7, 8, 9, 10, 11] := by
  rw [claim_C9_history_ring.2.2 ⟨[1, 2, 3, 4, 5, 6, 7, 8, 9, 10]⟩ 11 (by decide)]
  decide

/-- C10 (confirmed): if the last-activity timestamp is zero or negative,
classification never returns `stale` no matter how much real time has passed,
and the result does not depend on the clock at all — it falls through to the
CPU-based rules. -/
theorem claim_C10_no_stale_without_activity :
    ∀ (hist : Option sessionHistory) (cpu : Rat) (activityTS now now' : Int),
      activityTS ≤ 0 →
      sessionStatus hist cpu activityTS now ≠ "stale" ∧
      sessionStatus hist cpu activityTS now = sessionStatus hist cpu activityTS now' := by
  intro hist cpu ts now now' hts
  have hcond : ∀ m : Int, ¬(ts > 0 ∧ m - ts > staleThresholdSecs) :=
    fun m hc => absurd hc.1 (by omega)
  constructor
  · simp only [sessionStatus, if_neg (hcond now)]
    split_ifs <;> decide
  · simp only [sessionStatus, if_neg (hcond now), if_neg (hcond now')]

/-- C10 witness: a session with activity timestamp 0 and a CPU history full
of 99s is not `stale` even a billion seconds later. -/
theorem claim_C10_witness :
    sessionStatus (some ⟨List.replicate 10 99⟩) 99 0 1000000000 ≠ "stale" :=
  (claim_C10_no_stale_without_activity (some ⟨List.replicate 10 99⟩) 99 0 1000000000 0
    (by decide)).1

/-! ## Claim theorems about the parser and aggregator -/

/-- C2 (confirmed): on the process table
`[(100,1,10.0,1000),(200,100,5.0,2000),(300,1,50.0,500)]` with the single
anchor pid 100, the aggregator reports exactly cpu 15.0, resident memory
3000 KB (stored as bytes) and process count 2, and pid 300 is excluded from
the traversal (it is not a descendant of 100). -/
theorem claim_C2_roundtrip :
    (sessionResource [⟨100, 1, 10, 1000⟩, ⟨200, 100, 5, 2000⟩, ⟨300, 1, 50, 500⟩]
        0 ⟨"S1", 0, 0⟩ [100]).CPUPercent = 15 ∧
    (sessionResource [⟨100, 1, 10, 1000⟩, ⟨200, 100, 5, 2000⟩, ⟨300, 1, 50, 500⟩]
        0 ⟨"S1", 0, 0⟩ [100]).MemRSS = 3000 * 1024 ∧
    (sessionResource [⟨100, 1, 10, 1000⟩, ⟨200, 100, 5, 2000⟩, ⟨300, 1, 50, 500⟩]
        0 ⟨"S1", 0, 0⟩ [100]).ProcessCount = 2 ∧
    (300 : Int) ∉ (sessionAggregate [⟨100, 1, 10, 1000⟩, ⟨200, 100, 5, 2000⟩,
        ⟨300, 1, 50, 500⟩] [100]).visited := by
  refine ⟨?_, by decide, by decide, by decide⟩
  simp +decide [sessionResource, sessionAggregate, bfsRun, childrenOf, pidLookup,
    enqueueChildren, List.find?, List.filter]
  norm_num

/-- C7 counterexample: the line `100 1 abc 500` has a non-numeric cpu field
yet is not skipped — it contributes a record with cpu zero-filled. -/
theorem claim_C7_counterexample :
    parsePsLines ["100 1 abc 500"] = [⟨100, 1, 0, 500⟩] := by decide

/-- C7 (amended): the `ps` parser skips a line only when it has fewer than
four fields or a non-numeric pid or ppid; a line whose cpu or rss field does
not parse is kept with that value as zero.  Parse-level issues never produce
an error: whenever all three underlying commands were invoked successfully,
the fetch succeeds. -/
theorem claim_C7_parser_tolerance :
    (∀ fields : List String, fields.length < 4 → parsePsFields fields = none) ∧
    (∀ (f0 f1 f2 f3 : String) (rest : List String),
        goAtoi f0 = none ∨ goAtoi f1 = none →
        parsePsFields (f0 :: f1 :: f2 :: f3 :: rest) = none) ∧
    (∀ (f0 f1 f2 f3 : String) (rest : List String) (pid ppid : Int),
        goAtoi f0 = some pid → goAtoi f1 = some ppid →
        parsePsFields (f0 :: f1 :: f2 :: f3 :: rest) =
          some ⟨pid, ppid, (goParseRat f2).getD 0, (goAtoi f3).getD 0⟩) ∧
    (∀ (sessOut paneOut psOut : String) (now : Int),
        (fetchResourcesModel (some sessOut) (some paneOut) (some psOut) now).isOk
          = true) := by
  refine ⟨?_, ?_, ?_, ?_⟩
  · intro fields hlen
    rcases fields with _ | ⟨f0, _ | ⟨f1, _ | ⟨f2, _ | ⟨f3, rest⟩⟩⟩⟩
    · rfl
    · rfl
    · rfl
    · rfl
    · exfalso
      simp only [List.length_cons] at hlen
      omega
  · intro f0 f1 f2 f3 rest h
    rcases h with h | h
    · simp [parsePsFields, h]
    · cases h0 : goAtoi f0 <;> simp [parsePsFields, h0, h]
  · intro f0 f1 f2 f3 rest pid ppid h0 h1
    simp [parsePsFields, h0, h1]
  · intro so po pso now
    simp only [fetchResourcesModel]
    split <;> rfl

/-- C7 witness: a line with only three fields is skipped. -/
theorem claim_C7_witness : parsePsFields ["100", "1", "10.0"] = none :=
  claim_C7_parser_tolerance.1 ["100", "1", "10.0"] (by decide)

/-- C8 (confirmed): every listed session whose pane lookup is empty still
gets a snapshot — with zero cpu, memory and process count but real uptime
(`now - created`) and the real activity timestamp — rather than being
omitted. -/
theorem claim_C8_zero_pane_sessions :
    ∀ (procs : List ProcInfo) (sessions : List SessionMeta)
      (paneEntries : List (String × Int)) (now : Int) (sm : SessionMeta),
      sm ∈ sessions →
      panesFor paneEntries sm.name = [] →
      ({ Name := sm.name, CPUPercent := 0, MemRSS := 0, ProcessCount := 0,
         UptimeSecs := now - sm.created, ActivityTS := sm.activity } : SessionResource)
        ∈ fetchResourcesCore procs sessions paneEntries now := by
  intro procs sessions paneEntries now sm hmem hempty
  unfold fetchResourcesCore
  refine List.mem_map.mpr ⟨sm, hmem, ?_⟩
  rw [hempty]
  rfl

/-- C8 witness: a session `dead` with no panes in the listing is reported
with zeroed usage, uptime `100 - 5` and activity `7`. -/
theorem claim_C8_witness :
    ({ Name := "dead", CPUPercent := 0, MemRSS := 0, ProcessCount := 0,
       UptimeSecs := 95, ActivityTS := 7 } : SessionResource)
      ∈ fetchResourcesCore [] [⟨"dead", 5, 7⟩] [("other", 42)] 100 := by
  have h := claim_C8_zero_pane_sessions [] [⟨"dead", 5, 7⟩] [("other", 42)] 100
    ⟨"dead", 5, 7⟩ (by decide) (by decide)
  simpa using h

theorem pidLookup_isSome (procs : List ProcInfo) (q : Int) :
    (pidLookup procs q).isSome = true ↔ q ∈ allPidsF procs := by
  simp [pidLookup, allPidsF, List.find?_isSome, List.mem_reverse, List.mem_map]

theorem childrenOf_mem (procs : List ProcInfo) (pp x : Int)
    (hx : x ∈ childrenOf procs pp) : x ∈ allPidsF procs := by
  simp only [childrenOf, List.mem_map, List.mem_filter] at hx
  obtain ⟨p, ⟨hp, _⟩, rfl⟩ := hx
  simp only [allPidsF, List.mem_toFinset, List.mem_map]
  exact ⟨p, hp, rfl⟩

theorem enqueueChildren_visited (kids : List Int) :
    ∀ (v q : List Int),
      ((enqueueChildren kids v q).1).toFinset = v.toFinset ∪ kids.toFinset := by
  induction kids with
  | nil => intro v q; simp [enqueueChildren]
  | cons k rest ih =>
    intro v q
    by_cases hk : k ∈ v
    · simp only [enqueueChildren]
      rw [if_pos hk, ih, List.toFinset_cons, Finset.union_insert,
        Finset.insert_eq_self.mpr (Finset.mem_union_left _ (List.mem_toFinset.mpr hk))]
    · simp only [enqueueChildren]
      rw [if_neg hk, ih, List.toFinset_cons, List.toFinset_cons, Finset.union_insert,
        Finset.insert_union]

theorem enqueueChildren_queue (kids : List Int) :
    ∀ (v q : List Int),
      ((enqueueChildren kids v q).2).toFinset
        = q.toFinset ∪ (kids.toFinset \ v.toFinset) := by
  induction kids with
  | nil => intro v q; simp [enqueueChildren]
  | cons k rest ih =>
    intro v q
    by_cases hk : k ∈ v
    · simp only [enqueueChildren]
      rw [if_pos hk, ih]
      ext x
      by_cases hx : x = k
      · subst hx; simp [hk]
      · simp [hx]
    · simp only [enqueueChildren]
      rw [if_neg hk, ih]
      ext x
      by_cases hx : x = k
      · subst hx; simp [hk]
      · simp [hx]

theorem enqueueChildren_nodup (kids : List Int) :
    ∀ (v q : List Int), q.Nodup → (∀ x ∈ q, x ∈ v) →
      ((enqueueChildren kids v q).2).Nodup ∧
      (∀ x ∈ (enqueueChildren kids v q).2, x ∈ (enqueueChildren kids v q).1) := by
  induction kids with
  | nil => intro v q hq hsub; exact ⟨hq, hsub⟩
  | cons k rest ih =>
    intro v q hq hsub
    by_cases hk : k ∈ v
    · simp only [enqueueChildren]
      rw [if_pos hk]
      exact ih v q hq hsub
    · simp only [enqueueChildren]
      rw [if_neg hk]
      refine ih (k :: v) (q ++ [k]) ?_ ?_
      · rw [List.nodup_append]
        refine ⟨hq, List.nodup_singleton _, ?_⟩
        intro a ha hha
        simp only [List.mem_singleton] at hha
        subst hha
        exact hk (hsub a ha)
      · intro x hx
        rcases List.mem_append.mp hx with hx | hx
        · exact List.mem_cons_of_mem _ (hsub x hx)
        · simp only [List.mem_singleton] at hx
          subst hx
          exact List.mem_cons_self _ _

theorem enqueueChildren_measure (A : Finset Int) (kids : List Int) :
    ∀ (v q : List Int), (∀ x ∈ kids, x ∈ A) →
      ((enqueueChildren kids v q).2).length +
          (A \ ((enqueueChildren kids v q).1).toFinset).card
        ≤ q.length + (A \ v.toFinset).card := by
  induction kids with
  | nil => intro v q _; simp [enqueueChildren]
  | cons k rest ih =>
    intro v q hks
    by_cases hk : k ∈ v
    · simp only [enqueueChildren]
      rw [if_pos hk]
      exact ih v q fun x hx => hks x (List.mem_cons_of_mem _ hx)
    · simp only [enqueueChildren]
      rw [if_neg hk]
      refine le_trans (ih (k :: v) (q ++ [k]) fun x hx => hks x (List.mem_cons_of_mem _ hx)) ?_
      have hkA : k ∈ A := hks k (List.mem_cons_self _ _)
      have hmem : k ∈ A \ v.toFinset :=
        Finset.mem_sdiff.mpr ⟨hkA, fun h => hk (List.mem_toFinset.mp h)⟩
      have herase : A \ (k :: v).toFinset = (A \ v.toFinset).erase k := by
        ext x
        simp only [List.toFinset_cons, Finset.mem_sdiff, Finset.mem_insert,
          Finset.mem_erase, List.mem_toFinset]
        tauto
      rw [herase, List.length_append, Finset.card_erase_of_mem hmem]
      have hpos : 0 < (A \ v.toFinset).card := Finset.card_pos.mpr ⟨k, hmem⟩
      simp only [List.length_singleton]
      omega

theorem filter_union_card (A : Finset Int) (v : List Int) (restF kidsF : Finset Int)
    (hrsub : restF ⊆ v.toFinset) :
    ((restF ∪ (kidsF \ v.toFinset)).filter (fun q => q ∈ A)).card
        = (restF.filter (fun q => q ∈ A)).card
          + ((kidsF \ v.toFinset).filter (fun q => q ∈ A)).card ∧
    ((v.toFinset ∪ kidsF).filter (fun q => q ∈ A)).card
        = (v.toFinset.filter (fun q => q ∈ A)).card
          + ((kidsF \ v.toFinset).filter (fun q => q ∈ A)).card := by
  constructor
  · rw [Finset.filter_union]
    refine Finset.card_union_of_disjoint ?_
    rw [Finset.disjoint_left]
    intro a ha hb
    rw [Finset.mem_filter] at ha hb
    exact (Finset.mem_sdiff.mp hb.1).2 (hrsub ha.1)
  · rw [← Finset.union_sdiff_self_eq_union, Finset.filter_union]
    refine Finset.card_union_of_disjoint ?_
    rw [Finset.disjoint_left]
    intro a ha hb
    rw [Finset.mem_filter] at ha hb
    exact (Finset.mem_sdiff.mp hb.1).2 ha.1

theorem bfsRun_spec (procs : List ProcInfo) :
    ∀ (fuel : Nat) (s : BfsState),
      s.queue.Nodup →
      (∀ x ∈ s.queue, x ∈ s.visited) →
      s.procCount + ((s.queue.toFinset).filter (fun q => q ∈ allPidsF procs)).card
        = ((s.visited.toFinset).filter (fun q => q ∈ allPidsF procs)).card →
      s.queue.length + ((allPidsF procs) \ s.visited.toFinset).card ≤ fuel →
      (bfsRun procs fuel s).queue = [] ∧
      (bfsRun procs fuel s).procCount
        = (((bfsRun procs fuel s).visited.toFinset).filter
            (fun q => q ∈ allPidsF procs)).card := by
  intro fuel
  induction fuel with
  | zero =>
    intro s hnd hsub hcount hfuel
    have hq : s.queue = [] := by
      cases hq : s.queue with
      | nil => rfl
      | cons a t =>
        rw [hq] at hfuel
        simp only [List.length_cons] at hfuel
        omega
    simp only [bfsRun]
    refine ⟨hq, ?_⟩
    rw [hq] at hcount
    simpa using hcount
  | succ fuel ih =>
    intro s hnd hsub hcount hfuel
    cases hq : s.queue with
    | nil =>
      simp only [bfsRun, hq]
      refine ⟨trivial, ?_⟩
      rw [hq] at hcount
      simpa using hcount
    | cons pid rest =>
      rw [hq] at hnd
      have hpid_nr : pid ∉ rest := (List.nodup_cons.mp hnd).1
      have hrest_nd : rest.Nodup := (List.nodup_cons.mp hnd).2
      have hsub' : ∀ x ∈ rest, x ∈ s.visited := fun x hx =>
        hsub x (by rw [hq]; exact List.mem_cons_of_mem _ hx)
      have hkids : ∀ x ∈ childrenOf procs pid, x ∈ allPidsF procs :=
        fun x hx => childrenOf_mem procs pid x hx
      have hvq := enqueueChildren_visited (childrenOf procs pid) s.visited rest
      have hqq := enqueueChildren_queue (childrenOf procs pid) s.visited rest
      have hnodup := enqueueChildren_nodup (childrenOf procs pid) s.visited rest
        hrest_nd hsub'
      have hmeasure := enqueueChildren_measure (allPidsF procs) (childrenOf procs pid)
        s.visited rest hkids
      have hcount' := hcount
      rw [hq] at hcount'
      rw [hq] at hfuel
      simp only [List.length_cons] at hfuel
      have hfu := filter_union_card (allPidsF procs) s.visited rest.toFinset
        ((childrenOf procs pid).toFinset)
        (fun x hx => List.mem_toFinset.mpr (hsub' x (List.mem_toFinset.mp hx)))
      rcases hpl : pidLookup procs pid with _ | p
      · have hpA : pid ∉ allPidsF procs := by
          intro hmem
          have hs := (pidLookup_isSome procs pid).mpr hmem
          rw [hpl] at hs
          simp at hs
        have hc2 : s.procCount
            + ((rest.toFinset.filter (fun q => q ∈ allPidsF procs)).card)
            = ((s.visited.toFinset.filter (fun q => q ∈ allPidsF procs)).card) := by
          rw [List.toFinset_cons, Finset.filter_insert, if_neg hpA] at hcount'
          exact hcount'
        simp only [bfsRun, hq, hpl]
        refine ih _ hnodup.1 hnodup.2 ?_ ?_
        · show s.procCount
              + (((enqueueChildren (childrenOf procs pid) s.visited rest).2).toFinset.filter
                  (fun q => q ∈ allPidsF procs)).card
            = (((enqueueChildren (childrenOf procs pid) s.visited rest).1).toFinset.filter
                  (fun q => q ∈ allPidsF procs)).card
          rw [hqq, hvq, hfu.1, hfu.2]
          omega
        · show ((enqueueChildren (childrenOf procs pid) s.visited rest).2).length
              + ((allPidsF procs)
                  \ ((enqueueChildren (childrenOf procs pid) s.visited rest).1).toFinset).card
            ≤ fuel
          omega
      · have hpA : pid ∈ allPidsF procs := by
          refine (pidLookup_isSome procs pid).mp ?_
          rw [hpl]
          rfl
        have hpid_nf : pid ∉ rest.toFinset.filter (fun q => q ∈ allPidsF procs) := by
          intro hmem
          exact hpid_nr (List.mem_toFinset.mp (Finset.mem_filter.mp hmem).1)
        have hc2 : s.procCount + 1
            + ((rest.toFinset.filter (fun q => q ∈ allPidsF procs)).card)
            = ((s.visited.toFinset.filter (fun q => q ∈ allPidsF procs)).card) := by
          rw [List.toFinset_cons, Finset.filter_insert, if_pos hpA,
            Finset.card_insert_of_not_mem hpid_nf] at hcount'
          omega
        simp only [bfsRun, hq, hpl]
        refine ih _ hnodup.1 hnodup.2 ?_ ?_
        · show s.procCount + 1
              + (((enqueueChildren (childrenOf procs pid) s.visited rest).2).toFinset.filter
                  (fun q => q ∈ allPidsF procs)).card
            = (((enqueueChildren (childrenOf procs pid) s.visited rest).1).toFinset.filter
                  (fun q => q ∈ allPidsF procs)).card
          rw [hqq, hvq, hfu.1, hfu.2]
          omega
        · show ((enqueueChildren (childrenOf procs pid) s.visited rest).2).length
              + ((allPidsF procs)
                  \ ((enqueueChildren (childrenOf procs pid) s.visited rest).1).toFinset).card
            ≤ fuel
          omega

/-- C3 (amended): for every process table and every duplicate-free anchor
set, the BFS terminates with an empty queue and `procCount` equals the
number of visited (reachable) pids that have a record in the table — so each
pid is counted at most once even with cyclic parent references, and
`procCount` never exceeds the size of the visited set.  (Equality with the
full visited-set size fails when an anchor has no table record, see the
counterexample.) -/
theorem claim_C3_process_count :
    ∀ (procs : List ProcInfo) (panePIDs : List Int), panePIDs.Nodup →
      (sessionAggregate procs panePIDs).procCount
          = (((sessionAggregate procs panePIDs).visited.toFinset).filter
              (fun q => q ∈ allPidsF procs)).card ∧
      (sessionAggregate procs panePIDs).procCount
          ≤ ((sessionAggregate procs panePIDs).visited.toFinset).card := by
  intro procs panePIDs hnd
  have hfuel : panePIDs.length + ((allPidsF procs) \ panePIDs.toFinset).card
      ≤ panePIDs.length + procs.length := by
    have h1 : ((allPidsF procs) \ panePIDs.toFinset).card ≤ (allPidsF procs).card :=
      Finset.card_le_card (Finset.sdiff_subset)
    have h2 : (allPidsF procs).card ≤ procs.length := by
      have h3 : ((procs.map fun p => p.pid).toFinset).card
          ≤ (procs.map fun p => p.pid).length :=
        List.toFinset_card_le (procs.map fun p => p.pid)
      rw [List.length_map] at h3
      exact h3
    omega
  have h := bfsRun_spec procs (panePIDs.length + procs.length)
    ⟨panePIDs, panePIDs, 0, 0, 0⟩ hnd (fun x hx => hx) (by simp) hfuel
  unfold sessionAggregate
  exact ⟨h.2, h.2 ▸ Finset.card_filter_le _ _⟩

/-- C3 counterexample: with table `[(200, ppid 100)]` and anchor set `{100}`
the BFS visits both 100 and 200 (reachable-set size 2) but `procCount` is 1,
because anchor 100 has no record in the table — refuting the claim that
`process_count` always equals the size of the BFS-reachable set. -/
theorem claim_C3_counterexample :
    (sessionAggregate [⟨200, 100, 5, 2000⟩] [100]).procCount = 1 ∧
    ((sessionAggregate [⟨200, 100, 5, 2000⟩] [100]).visited.toFinset).card = 2 := by
  constructor
  · decide
  · decide

/-- C3 witness: on the counterexample input the amended bound holds —
`procCount` does not exceed the visited-set size. -/
theorem claim_C3_witness :
    (sessionAggregate [⟨200, 100, 5, 2000⟩] [100]).procCount
      ≤ ((sessionAggregate [⟨200, 100, 5, 2000⟩] [100]).visited.toFinset).card :=
  (claim_C3_process_count [⟨200, 100, 5, 2000⟩] [100] (by decide)).2

theorem clampScroll_sessions_err (p : ResourcesPaneState) :
    (clampScroll p).sessions = p.sessions ∧ (clampScroll p).err = p.err := by
  simp only [clampScroll]
  split_ifs <;> exact ⟨rfl, rfl⟩

/-- C6 counterexample: a pane showing one session receives a failed fetch
(`Err` set, empty payload) — its session list becomes empty instead of
retaining the previous successful list. -/
theorem claim_C6_counterexample :
    (updateOnResourceMsg
        ⟨[⟨"s1", 10, 2048, 3, 60, 5⟩], [], 0, 0, 80, 24, none, .sortByCPU⟩
        [] (some "fetch failed")).sessions = [] ∧
    (updateOnResourceMsg
        ⟨[⟨"s1", 10, 2048, 3, 60, 5⟩], [], 0, 0, 80, 24, none, .sortByCPU⟩
        [] (some "fetch failed")).err = some "fetch failed" ∧
    ([⟨"s1", 10, 2048, 3, 60, 5⟩] : List SessionResource) ≠ [] := by
  refine ⟨by decide, by decide, by decide⟩

/-- C6 (amended): on every resources update — error or not — the pane
overwrites its session list with the message's payload (sorted by the
current sort mode) and records the error; a failed fetch carries a nil
payload, so the previously displayed list is cleared, not retained. -/
theorem claim_C6_error_replaces :
    ∀ (p : ResourcesPaneState) (msgSessions : List SessionResource) (e : String),
      (updateOnResourceMsg p msgSessions (some e)).err = some e ∧
      (updateOnResourceMsg p msgSessions (some e)).sessions
        = sortSessions p.sortBy msgSessions := by
  intro p msgSessions e
  have h := clampScroll_sessions_err
    { p with
        sessions := sortSessions p.sortBy msgSessions
        err := some e
        history := msgSessions.foldl (fun m s => histUpsert m s.Name s.CPUPercent) p.history }
  exact ⟨h.2, h.1⟩

/-! ## Claim theorems about the poll scheduler -/

/-- C1 counterexample: pressing the refresh key right after `Init`, while
every category's initial fetch is still in flight, starts a second resources
fetch — two fetches for the same category are then outstanding, and the tick
handler likewise has no guard that would make such events no-ops. -/
theorem claim_C1_counterexample :
    (schedRun [.pressRefresh] schedInitState).map
        (fun s => s.inFlight .resources) = some 2 := by
  decide

theorem schedNext_inv (s : SchedJobs) (l : SchedLabel) (hl : l ≠ SchedLabel.pressRefresh)
    (hinv : ∀ c, s.inFlight c + s.timers c ≤ 1) :
    ∀ s2, schedNext s l = some s2 → ∀ c, s2.inFlight c + s2.timers c ≤ 1 := by
  intro s2 hs2 c2
  cases l with
  | deliverTick c =>
    simp only [schedNext] at hs2
    split at hs2
    · exact absurd hs2 (by simp)
    · next ht =>
      rw [Option.some_inj] at hs2
      subst hs2
      simp only [applyCmds, schedStep, List.foldl, applyCmd]
      by_cases hc : c2 = c
      · subst hc
        simp only [Function.update_same]
        have h1 := hinv c2
        omega
      · simp only [Function.update_noteq hc]
        exact hinv c2
  | completeFetch c =>
    simp only [schedNext] at hs2
    split at hs2
    · exact absurd hs2 (by simp)
    · next ht =>
      rw [Option.some_inj] at hs2
      subst hs2
      simp only [applyCmds, schedStep, List.foldl, applyCmd]
      by_cases hc : c2 = c
      · subst hc
        simp only [Function.update_same]
        have h1 := hinv c2
        omega
      · simp only [Function.update_noteq hc]
        exact hinv c2
  | pressRefresh => exact absurd rfl hl

theorem schedRun_inv : ∀ (labels : List SchedLabel) (s s2 : SchedJobs),
    (∀ l ∈ labels, l ≠ SchedLabel.pressRefresh) →
    (∀ c, s.inFlight c + s.timers c ≤ 1) →
    schedRun labels s = some s2 →
    ∀ c, s2.inFlight c + s2.timers c ≤ 1 := by
  intro labels
  induction labels with
  | nil =>
    intro s s2 _ hinv h
    simp only [schedRun, Option.some_inj] at h
    subst h
    exact hinv
  | cons l rest ih =>
    intro s s2 hnr hinv h
    simp only [schedRun] at h
    cases hn : schedNext s l with
    | none => rw [hn] at h; exact absurd h (by simp)
    | some s1 =>
      rw [hn] at h
      exact ih s1 s2 (fun x hx => hnr x (List.mem_cons_of_mem _ hx))
        (schedNext_inv s l (hnr l (List.mem_cons_self _ _)) hinv s1 hn) h

theorem schedInitState_inv :
    ∀ c, schedInitState.inFlight c + schedInitState.timers c ≤ 1 := by
  intro c
  cases c <;> decide

/-- C1 (amended): the step function has no in-flight guard — a tick always
starts a fetch and the refresh key always starts one fetch per category, so
events arriving while a fetch is in flight start a second one.  However,
along every event sequence that contains no refresh key press, at most one
fetch per category is outstanding at any time (and no tick can even be
delivered while its category's fetch is in flight, because the next tick is
scheduled only when a fetch's result is published): the per-category sum of
in-flight fetches and pending timers never exceeds one. -/
theorem claim_C1_single_flight :
    ∀ (labels : List SchedLabel) (s : SchedJobs) (c : PollCategory),
      (∀ l ∈ labels, l ≠ SchedLabel.pressRefresh) →
      schedRun labels schedInitState = some s →
      s.inFlight c + s.timers c ≤ 1 := by
  intro labels s c hnr h
  exact schedRun_inv labels schedInitState s hnr schedInitState_inv h c

/-- C1 witness: after a complete tick → fetch → publish → reschedule → tick
cycle for resources, at most one resources fetch is outstanding. -/
theorem claim_C1_witness :
    schedWitnessState.inFlight PollCategory.resources
      + schedWitnessState.timers PollCategory.resources ≤ 1 :=
  claim_C1_single_flight schedWitnessTrace schedWitnessState PollCategory.resources
    (by decide) rfl

end KestralTui
